import Mathlib

/-!
Formal model of the phonebook service in `app.py`: the prefix-search trie,
the contact store, the relationship graph and the call log, together with
the handlers `update_contact`, `delete_contact`, `search_contact`,
`add_relationship`, `get_graph` and `get_call_log` embedded as pure
functions on explicit state.  Python dictionaries are modelled as
insertion-ordered association lists (matching dict iteration order: updates
keep the position of an existing key, new keys are appended), and Python strings
as `List Char`.
-/

set_option autoImplicit false

namespace Phonebook

/-- Model of Python dict lookup `d[k]` / `k in d` on an insertion-ordered
association list. -/
def lookupKey {K V : Type} [DecidableEq K] (k : K) : List (K × V) → Option V
  | [] => none
  | (k', v) :: rest => if k' = k then some v else lookupKey k rest

/-- Model of Python dict assignment `d[k] = v`: replaces the value in place
when the key is present (a dict update keeps the position of the key), otherwise
appends the new key at the end (insertion order). -/
def setKey {K V : Type} [DecidableEq K] (k : K) (v : V) : List (K × V) → List (K × V)
  | [] => [(k, v)]
  | (k', v') :: rest => if k' = k then (k, v) :: rest else (k', v') :: setKey k v rest

/-- Model of Python `del d[k]`: removes the entry for `k` (a dict holds at
most one entry per key). -/
def eraseKey {K V : Type} [DecidableEq K] (k : K) : List (K × V) → List (K × V)
  | [] => []
  | (k', v') :: rest => if k' = k then rest else (k', v') :: eraseKey k rest

/-- Model of Python `str.lower()` on the ASCII range the app manipulates. -/
def lower (s : List Char) : List Char := s.map Char.toLower

/-- Model of `TrieNode.__init__` (`app.py`, lines 36-39): `children` is the
dict from characters to child nodes, `is_end_of_word` the terminal flag. -/
inductive TrieNode : Type where
  | mk (children : List (Char × TrieNode)) (is_end_of_word : Bool)

/-- Body of `Trie.insert` (`app.py`, lines 45-51) after `word.lower()` has
been applied: walks the word character by character, creating missing child
nodes (each appended at the end of the children dict, i.e. in creation
order), and marks the final node terminal. -/
def insertAux : TrieNode → List Char → TrieNode
  | .mk ch _, [] => .mk ch true
  | .mk ch e, c :: cs =>
      .mk (setKey c (insertAux ((lookupKey c ch).getD (.mk [] false)) cs) ch) e

/-- Model of `Trie.insert` (`app.py`, lines 45-51): lowercases the word and
inserts it. -/
def Trie.insert (t : TrieNode) (word : List Char) : TrieNode :=
  insertAux t (lower word)

/-- Descent loop of `Trie.search` (`app.py`, lines 54-58): follows the
lowercased query character by character and returns the node reached, or
`none` as soon as a character has no matching child. -/
def searchAux : TrieNode → List Char → Option TrieNode
  | n, [] => some n
  | .mk ch _, c :: q =>
      match lookupKey c ch with
      | none => none
      | some m => searchAux m q

mutual
/-- Model of `Trie._collect_all_words` (`app.py`, lines 61-67): pre-order
depth-first collection — the word of the current node first (when the node is
terminal), then the children in stored (creation) order. -/
def collectAll : TrieNode → List Char → List (List Char)
  | .mk ch e, pfx => (if e then [pfx] else []) ++ collectList ch pfx
/-- Loop `for char, child_node in node.children.items()` of
`Trie._collect_all_words`, iterating the children dict in insertion order. -/
def collectList : List (Char × TrieNode) → List Char → List (List Char)
  | [], _ => []
  | (c, n) :: rest, pfx => collectAll n (pfx ++ [c]) ++ collectList rest pfx
end

/-- Model of `Trie.search` (`app.py`, lines 53-59): descends along
`prefix.lower()`; if a character is missing returns `[]`; otherwise collects
every word below the node reached, rebuilding each word from the ORIGINAL
(uncased) query string — the source passes `prefix`, not `prefix.lower()`,
to `_collect_all_words`. -/
def Trie.search (t : TrieNode) (p : List Char) : List (List Char) :=
  match searchAux t (lower p) with
  | none => []
  | some n => collectAll n p

/-- Trie obtained by a sequence of `Trie.insert` calls starting from the
fresh `Trie()` the app constructs (`app.py`, line 69). -/
def build (names : List (List Char)) : TrieNode :=
  names.foldl Trie.insert (.mk [] false)

/-- Fused descent-and-collection used to reason about `Trie.search`: the
query characters still to follow and the reconstruction string are kept as
separate arguments. -/
def searchCore : TrieNode → List Char → List Char → List (List Char)
  | n, [], pfx => collectAll n pfx
  | .mk ch _, c :: q, pfx =>
      match lookupKey c ch with
      | none => []
      | some m => searchCore m q pfx

/-- Children keys of a trie node, in stored (creation) order. -/
def childKeys : TrieNode → List Char
  | .mk ch _ => ch.map Prod.fst

/-- Contact record: the value stored under the lowercased name key
(`app.py`, lines 104-110). -/
structure Contact where
  phone : List Char
  email : List Char
  address : List Char
  group : List Char
  favorite : Bool
deriving DecidableEq

/-- Contact store: the Python dict `contacts` from lowercase name to
contact record (`app.py`, line 12). -/
abbrev Store := List (List Char × Contact)

/-- Relationship graph / call log shape: dict from contact key to a
collection of strings (`app.py`, lines 13-14). -/
abbrev Graph := List (List Char × List (List Char))

/-- Model of `validate_phone` (`app.py`, lines 74-75): `phone.isdigit()`
(nonempty, all ASCII digits) and length at least 10. -/
def validate_phone (phone : List Char) : Bool :=
  (!phone.isEmpty && phone.all Char.isDigit) && decide (10 ≤ phone.length)

/-- Character class `[a-zA-Z0-9_.+-]` of the email regex. -/
def isLocalChar (c : Char) : Bool :=
  c.isAlpha || c.isDigit || c = '_' || c = '.' || c = '+' || c = '-'

/-- Character class `[a-zA-Z0-9-]` of the email regex. -/
def isDomainChar (c : Char) : Bool := c.isAlpha || c.isDigit || c = '-'

/-- Character class `[a-zA-Z0-9-.]` of the email regex. -/
def isTailChar (c : Char) : Bool := c.isAlpha || c.isDigit || c = '-' || c = '.'

/-- Model of `validate_email` (`app.py`, lines 77-79), the regex
`^[a-zA-Z0-9_.+-]+@[a-zA-Z0-9-]+\.[a-zA-Z0-9-.]+$` under `re.match`.
Because `@` is outside the local class and `.` outside the domain class, a
match decomposes deterministically: a nonempty local-class run, `@`, a
nonempty domain-class run, `.`, and a nonempty tail-class run reaching the
end of the string (the `$` of Python also accepts one trailing newline). -/
def validate_email (email : List Char) : Bool :=
  let loc := email.takeWhile isLocalChar
  match email.drop loc.length with
  | '@' :: r2 =>
      (!loc.isEmpty) &&
        (let dom := r2.takeWhile isDomainChar
         match r2.drop dom.length with
         | '.' :: r3 =>
             (!dom.isEmpty) &&
               ((!r3.isEmpty && r3.all isTailChar) ||
                ((r3.getLast? == some '\n') && !r3.dropLast.isEmpty &&
                  r3.dropLast.all isTailChar))
         | _ => false)
  | _ => false

/-- Fields of the JSON body of `PUT /contacts/<name>` as read by
`data.get(...)` (`app.py`, lines 121-126); `none` models an absent field. -/
structure UpdateData where
  phone : Option (List Char)
  email : Option (List Char)
  address : Option (List Char)
  group : Option (List Char)
  favorite : Option Bool
deriving DecidableEq

/-- Python truthiness of an optional string: `None` and `""` are falsy. -/
def truthy : Option (List Char) → Bool
  | none => false
  | some s => !s.isEmpty

/-- Model of `update_contact` (`app.py`, lines 115-147): returns the HTTP
status code and the contact store after the request.  Validation of a
truthy malformed phone or email aborts with 400 before any field is
written; then each truthy string field is applied in source order, and
`favorite` is applied whenever it `is not None`. -/
def update_contact (store : Store) (name : List Char) (d : UpdateData) :
    Nat × Store :=
  let key := lower name
  match lookupKey key store with
  | none => (404, store)
  | some contact =>
      if truthy d.phone && !validate_phone (d.phone.getD []) then (400, store)
      else if truthy d.email && !validate_email (d.email.getD []) then (400, store)
      else
        let c1 := if truthy d.phone then { contact with phone := d.phone.getD [] }
                  else contact
        let c2 := if truthy d.email then { c1 with email := d.email.getD [] } else c1
        let c3 := if truthy d.address then { c2 with address := d.address.getD [] }
                  else c2
        let c4 := if truthy d.group then { c3 with group := d.group.getD [] } else c3
        let c5 := match d.favorite with
          | some b => { c4 with favorite := b }
          | none => c4
        (200, setKey key c5 store)

/-- Full in-memory state of the app: the dicts `contacts`, `relationships`
and `call_log` (`app.py`, lines 12-14). -/
structure AppState where
  contacts : Store
  relationships : Graph
  call_log : Graph
deriving DecidableEq

/-- Model of `delete_contact` (`app.py`, lines 149-157): removes the
lowercased key from the contact store when present (404 otherwise); the
relationship graph, the call log and the trie are not touched. -/
def delete_contact (s : AppState) (name : List Char) : Nat × AppState :=
  let key := lower name
  if (lookupKey key s.contacts).isSome then
    (200, { s with contacts := eraseKey key s.contacts })
  else (404, s)

/-- Model of `search_contact` (`app.py`, lines 159-164): lowercases the
query, runs the trie search, then keeps only names whose lowercased form is
a key of the current contact store, pairing each with its stored record. -/
def search_contact (store : Store) (t : TrieNode) (query : List Char) :
    List (List Char × Contact) :=
  (Trie.search t (lower query)).filterMap fun n =>
    match lookupKey (lower n) store with
    | some c => some (n, c)
    | none => none

/-- Neighbor set of `k` in the relationship graph; a missing key reads as
the empty set a `defaultdict(set)` would create on access. -/
def neighbors (g : Graph) (k : List Char) : List (List Char) :=
  (lookupKey k g).getD []

/-- Model of `relationships[k].add(v)` on the `defaultdict(set)`: creates
the entry when `k` is absent, and adds `v` unless it is already a member
(set semantics). -/
def relAdd (g : Graph) (k v : List Char) : Graph :=
  match lookupKey k g with
  | some ns => if v ∈ ns then g else setKey k (ns ++ [v]) g
  | none => g ++ [(k, [v])]

/-- Model of `add_relationship` (`app.py`, lines 184-192): 404 when either
lowercased name is missing from the contact store, leaving the graph
unchanged; otherwise adds the edge in both directions. -/
def add_relationship (store : Store) (g : Graph) (name1 name2 : List Char) :
    Nat × Graph :=
  let key1 := lower name1
  let key2 := lower name2
  if (lookupKey key1 store).isNone || (lookupKey key2 store).isNone then (404, g)
  else (200, relAdd (relAdd g key1 key2) key2 key1)

/-- Model of `get_graph` (`app.py`, lines 194-196): dumps the adjacency
structure. -/
def get_graph (s : AppState) : Graph := s.relationships

/-- Model of `get_call_log` (`app.py`, lines 207-209): dumps the call log. -/
def get_call_log (s : AppState) : Graph := s.call_log

/-- Symmetry invariant of the relationship graph (spec, section 3). -/
def SymmGraph (g : Graph) : Prop :=
  ∀ x y, y ∈ neighbors g x → x ∈ neighbors g y

/-- Sample contact record used in concrete scenarios. -/
def sampleContact : Contact :=
  { phone := ['1','2','3','4','5','6','7','8','9','0'], email := [],
    address := [], group := [], favorite := false }

/-- Concrete state used in deletion scenarios: contacts "alice" and "bob",
one relationship edge between them, and one logged call for "alice". -/
def sampleState : AppState :=
  { contacts := [(['a','l','i','c','e'], sampleContact),
                 (['b','o','b'], sampleContact)]
    relationships := [(['a','l','i','c','e'], [['b','o','b']]),
                      (['b','o','b'], [['a','l','i','c','e']])]
    call_log := [(['a','l','i','c','e'], [['n','o','o','n']])] }

section AssocLemmas

variable {K V : Type} [DecidableEq K]

theorem lookupKey_setKey_self (k : K) (v : V) (l : List (K × V)) :
    lookupKey k (setKey k v l) = some v := by
  induction l with
  | nil => simp [setKey, lookupKey]
  | cons p rest ih =>
      obtain ⟨k', v'⟩ := p
      by_cases h : k' = k <;> simp [setKey, lookupKey, h, ih]

theorem lookupKey_setKey_ne (k k' : K) (v : V) (l : List (K × V)) (h : k' ≠ k) :
    lookupKey k' (setKey k v l) = lookupKey k' l := by
  induction l with
  | nil => simp [setKey, lookupKey, Ne.symm h]
  | cons p rest ih =>
      obtain ⟨k₀, v₀⟩ := p
      by_cases hk : k₀ = k
      · subst hk
        simp [setKey, lookupKey, Ne.symm h]
      · simp [setKey, lookupKey, hk, ih]

theorem setKey_setKey (k : K) (v w : V) (l : List (K × V)) :
    setKey k v (setKey k w l) = setKey k v l := by
  induction l with
  | nil => simp [setKey]
  | cons p rest ih =>
      obtain ⟨k₀, v₀⟩ := p
      by_cases hk : k₀ = k <;> simp [setKey, hk, ih]

theorem map_fst_setKey (k : K) (v : V) (l : List (K × V)) :
    (setKey k v l).map Prod.fst =
      if (lookupKey k l).isSome then l.map Prod.fst else l.map Prod.fst ++ [k] := by
  induction l with
  | nil => simp [setKey, lookupKey]
  | cons p rest ih =>
      obtain ⟨k₀, v₀⟩ := p
      by_cases hk : k₀ = k
      · simp [setKey, lookupKey, hk]
      · by_cases hs : (lookupKey k rest).isSome <;>
          simp [setKey, lookupKey, hk, ih, hs]

theorem lookupKey_append (k : K) (l₁ l₂ : List (K × V)) :
    lookupKey k (l₁ ++ l₂) =
      match lookupKey k l₁ with
      | some v => some v
      | none => lookupKey k l₂ := by
  induction l₁ with
  | nil => simp [lookupKey]
  | cons p rest ih =>
      obtain ⟨k₀, v₀⟩ := p
      by_cases hk : k₀ = k <;> simp [lookupKey, hk, ih]

end AssocLemmas

theorem collectList_append (l₁ l₂ : List (Char × TrieNode)) (pfx : List Char) :
    collectList (l₁ ++ l₂) pfx = collectList l₁ pfx ++ collectList l₂ pfx := by
  induction l₁ with
  | nil => simp [collectList]
  | cons p rest ih =>
      obtain ⟨c, n⟩ := p
      simp [collectList, ih]

theorem collectAll_nilNode (e : Bool) (pfx : List Char) :
    collectAll (.mk [] e) pfx = if e then [pfx] else [] := by
  simp [collectAll, collectList]

theorem searchCore_nilNode (q pfx : List Char) :
    searchCore (.mk [] false) q pfx = [] := by
  cases q with
  | nil => simp [searchCore, collectAll_nilNode]
  | cons c q' => simp [searchCore, lookupKey]

theorem search_eq_searchCore (t : TrieNode) (p : List Char) :
    Trie.search t p = searchCore t (lower p) p := by
  show (match searchAux t (lower p) with
        | none => []
        | some n => collectAll n p) = searchCore t (lower p) p
  generalize lower p = q
  induction q generalizing t with
  | nil => cases t with | mk ch e => simp [searchAux, searchCore]
  | cons c q' ih =>
      cases t with
      | mk ch e =>
          cases h : lookupKey c ch with
          | none => simp [searchAux, searchCore, h]
          | some m => simp [searchAux, searchCore, h, ih]

theorem mem_collectList_setKey (v' : List Char)
    (IH : ∀ (t : TrieNode) (pfx w : List Char),
      w ∈ collectAll (insertAux t v') pfx ↔ w ∈ collectAll t pfx ∨ w = pfx ++ v')
    (ch : List (Char × TrieNode)) (a : Char) (pfx w : List Char) :
    w ∈ collectList
        (setKey a (insertAux ((lookupKey a ch).getD (.mk [] false)) v') ch) pfx
      ↔ w ∈ collectList ch pfx ∨ w = pfx ++ a :: v' := by
  induction ch with
  | nil =>
      simp only [lookupKey, setKey, Option.getD_none, collectList, List.append_nil,
        List.not_mem_nil, false_or]
      rw [IH]
      simp [collectAll_nilNode, List.append_assoc]
  | cons p rest ih =>
      obtain ⟨c, m⟩ := p
      by_cases hc : c = a
      · subst hc
        simp only [lookupKey, if_pos rfl, Option.getD_some, setKey, collectList,
          List.mem_append]
        rw [IH]
        simp [List.append_assoc]
        tauto
      · simp only [lookupKey, hc, if_false, setKey, collectList, List.mem_append]
        rw [ih]
        tauto

theorem mem_collectAll_insertAux (v : List Char) :
    ∀ (t : TrieNode) (pfx w : List Char),
      w ∈ collectAll (insertAux t v) pfx ↔ w ∈ collectAll t pfx ∨ w = pfx ++ v := by
  induction v with
  | nil =>
      intro t pfx w
      cases t with
      | mk ch e =>
          cases e <;> simp [insertAux, collectAll] <;> tauto
  | cons a v' IH =>
      intro t pfx w
      cases t with
      | mk ch e =>
          simp only [insertAux, collectAll, List.mem_append]
          rw [mem_collectList_setKey v' IH ch a pfx w]
          tauto

theorem mem_searchCore_insertAux (v : List Char) :
    ∀ (t : TrieNode) (q pfx w : List Char),
      w ∈ searchCore (insertAux t v) q pfx ↔
        w ∈ searchCore t q pfx ∨ (q <+: v ∧ w = pfx ++ v.drop q.length) := by
  induction v with
  | nil =>
      intro t q pfx w
      cases q with
      | nil =>
          simpa [searchCore, List.nil_prefix] using mem_collectAll_insertAux [] t pfx w
      | cons b q' =>
          cases t with
          | mk ch e =>
              cases h : lookupKey b ch with
              | none => simp [insertAux, searchCore, h]
              | some m => simp [insertAux, searchCore, h]
  | cons a v' IH =>
      intro t q pfx w
      cases q with
      | nil =>
          simpa [searchCore, List.nil_prefix] using
            mem_collectAll_insertAux (a :: v') t pfx w
      | cons b q' =>
          cases t with
          | mk ch e =>
              by_cases hb : b = a
              · subst hb
                simp only [insertAux, searchCore, lookupKey_setKey_self]
                rw [IH]
                cases h : lookupKey b ch with
                | none =>
                    simp [h, searchCore_nilNode, List.cons_prefix_cons,
                      List.drop_succ_cons]
                | some child =>
                    simp [h, List.cons_prefix_cons, List.drop_succ_cons]
              · have hne : ¬ (b :: q' <+: a :: v') := by
                  rw [List.cons_prefix_cons]
                  exact fun hx => hb hx.1
                simp only [insertAux, searchCore, lookupKey_setKey_ne a b _ ch hb, hne,
                  false_and, or_false]

theorem mem_searchCore_foldl (names : List (List Char)) :
    ∀ (t : TrieNode) (q pfx w : List Char),
      w ∈ searchCore (names.foldl Trie.insert t) q pfx ↔
        w ∈ searchCore t q pfx ∨
          ∃ v ∈ names.map lower, q <+: v ∧ w = pfx ++ v.drop q.length := by
  induction names with
  | nil => intro t q pfx w; simp
  | cons n ns ih =>
      intro t q pfx w
      rw [List.foldl_cons, ih, Trie.insert, mem_searchCore_insertAux]
      simp only [List.map_cons, List.mem_cons]
      constructor
      · rintro ((h | h) | ⟨v, hv, hq, hw⟩)
        · exact Or.inl h
        · exact Or.inr ⟨lower n, Or.inl rfl, h⟩
        · exact Or.inr ⟨v, Or.inr hv, hq, hw⟩
      · rintro (h | ⟨v, (rfl | hv), hq, hw⟩)
        · exact Or.inl (Or.inl h)
        · exact Or.inl (Or.inr ⟨hq, hw⟩)
        · exact Or.inr ⟨v, hv, hq, hw⟩

theorem mem_search_build (names : List (List Char)) (p w : List Char) :
    w ∈ Trie.search (build names) p ↔
      ∃ v ∈ names.map lower, lower p <+: v ∧ w = p ++ v.drop p.length := by
  rw [search_eq_searchCore, build, mem_searchCore_foldl]
  have hlen : (lower p).length = p.length := List.length_map _ _
  rw [hlen, searchCore_nilNode]
  simp

theorem insertAux_idem (v : List Char) :
    ∀ t : TrieNode, insertAux (insertAux t v) v = insertAux t v := by
  induction v with
  | nil =>
      intro t
      cases t with
      | mk ch e => simp [insertAux]
  | cons a v' IH =>
      intro t
      cases t with
      | mk ch e =>
          simp only [insertAux, lookupKey_setKey_self, Option.getD_some, IH,
            setKey_setKey]

/-- Claim C1, counterexample to the claim as stated: insert the name "ab"
and search with the uppercase query "A", which is a case-insensitive prefix
of "ab".  The source passes the ORIGINAL query, not its lowercased form, to
`_collect_all_words`, so the result is "Ab", and the fully lowercased name
"ab" is NOT in the result. -/
theorem c1_counterexample :
    (lower ['A'] <+: lower ['a','b']) ∧
      Trie.search (build [['a','b']]) ['A'] = [['A','b']] ∧
      lower ['a','b'] ∉ Trie.search (build [['a','b']]) ['A'] := by decide

/-- Claim C1 (amended): for every inserted name N and every P whose
lowercased form is a prefix of lowercased N, `search(P)` includes the word
P ++ (suffix of lowercased N past P); when P is itself all lowercase this
word is exactly N fully lowercased. -/
theorem c1_search_includes_name (names : List (List Char)) (N P : List Char)
    (hN : N ∈ names) (hP : lower P <+: lower N) :
    P ++ (lower N).drop P.length ∈ Trie.search (build names) P ∧
      (lower P = P → lower N ∈ Trie.search (build names) P) := by
  have h1 : P ++ (lower N).drop P.length ∈ Trie.search (build names) P := by
    rw [mem_search_build]
    exact ⟨lower N, List.mem_map_of_mem lower hN, hP, rfl⟩
  refine ⟨h1, fun hPl => ?_⟩
  obtain ⟨s, hs⟩ := hP
  have hdrop : (lower N).drop P.length = s := by
    rw [← hs, hPl, List.drop_left]
  have hN' : lower N = P ++ (lower N).drop P.length := by
    rw [hdrop, ← hs, hPl]
  rw [hN']
  exact h1

theorem c1_search_includes_name_witness :
    (['A','b'] ∈ [['A','b']] ∧ lower ['a'] <+: lower ['A','b']) ∧
      (['a'] ++ (lower ['A','b']).drop (List.length ['a']) ∈
          Trie.search (build [['A','b']]) ['a'] ∧
        (lower ['a'] = ['a'] →
          lower ['A','b'] ∈ Trie.search (build [['A','b']]) ['a'])) :=
  ⟨by decide, c1_search_includes_name [['A','b']] ['A','b'] ['a'] (by decide)
    (by decide)⟩

/-- Claim C2: searching with the empty query returns exactly the set of all
inserted names, case-folded to lowercase; and searching with a query P that
is a case-insensitive prefix of no inserted name returns the empty list. -/
theorem c2_empty_query_and_no_match (names : List (List Char)) (P : List Char)
    (hP : ∀ N ∈ names, ¬ lower P <+: lower N) :
    (∀ w, w ∈ Trie.search (build names) [] ↔ w ∈ names.map lower) ∧
      Trie.search (build names) P = [] := by
  constructor
  · intro w
    rw [mem_search_build]
    constructor
    · rintro ⟨v, hv, -, rfl⟩
      simpa using hv
    · intro hw
      exact ⟨w, hw, by simp [lower], by simp⟩
  · rw [List.eq_nil_iff_forall_not_mem]
    intro w hw
    rw [mem_search_build] at hw
    obtain ⟨v, hv, hpre, -⟩ := hw
    obtain ⟨N, hN, rfl⟩ := List.mem_map.1 hv
    exact hP N hN hpre

theorem c2_empty_query_and_no_match_witness :
    (∀ N ∈ [['a','b']], ¬ lower ['z'] <+: lower N) ∧
      ((∀ w, w ∈ Trie.search (build [['a','b']]) [] ↔
          w ∈ [['a','b']].map lower) ∧
        Trie.search (build [['a','b']]) ['z'] = []) :=
  ⟨by decide, c2_empty_query_and_no_match [['a','b']] ['z'] (by decide)⟩

/-- Claim C4: the search order is a deterministic function of the insertion
history (the model is a pure function of the trie state built from the
inserts).  First conjunct: the collection emits the word of the current node, if
terminal, before anything collected below its children (pre-order).  Second
conjunct: `insert` keeps the existing children dict order untouched and
appends a newly created child at the end, so children are iterated in
creation order.  Third conjunct: a concrete insertion history showing both
the creation (non-lexicographic) child order ("b" before "a") and
pre-order terminal-first emission ("a" before "ab"). -/
theorem c4_search_order :
    (∀ (ch : List (Char × TrieNode)) (pfx : List Char),
        (collectAll (.mk ch true) pfx).head? = some pfx) ∧
      (∀ (ch : List (Char × TrieNode)) (e : Bool) (c : Char) (cs : List Char),
        childKeys (insertAux (.mk ch e) (c :: cs)) =
          if (lookupKey c ch).isSome then ch.map Prod.fst
          else ch.map Prod.fst ++ [c]) ∧
      Trie.search (build [['b'], ['a'], ['a','b']]) [] =
        [['b'], ['a'], ['a','b']] := by
  refine ⟨?_, ?_, by decide⟩
  · intro ch pfx
    simp [collectAll]
  · intro ch e c cs
    simp [insertAux, childKeys, map_fst_setKey]

/-- Claim C5: inserting the same name twice leaves the trie structurally
identical to inserting it once, hence every search result, for every
query, is identical. -/
theorem c5_insert_idempotent (t : TrieNode) (N P : List Char) :
    Trie.insert (Trie.insert t N) N = Trie.insert t N ∧
      Trie.search (Trie.insert (Trie.insert t N) N) P =
        Trie.search (Trie.insert t N) P := by
  have h : Trie.insert (Trie.insert t N) N = Trie.insert t N := by
    unfold Trie.insert
    exact insertAux_idem (lower N) t
  exact ⟨h, by rw [h]⟩

/-- Claim C3: every entry the search endpoint returns is backed by the
current contact store (the endpoint intersects raw trie results with the
store keys), so after a delete no entry for the removed contact can be
served.  The closed conjuncts are the concrete scenario: after deleting
"alice", `Trie.search` alone still answers "alice" for the query "al", yet
the endpoint returns nothing. -/
theorem c3_endpoint_filters_store (store : Store) (t : TrieNode)
    (query n : List Char) (c : Contact)
    (h : (n, c) ∈ search_contact store t query) :
    lookupKey (lower n) store = some c ∧
      Trie.search (build [['a','l','i','c','e']]) ['a','l'] =
        [['a','l','i','c','e']] ∧
      search_contact
          (delete_contact ⟨[(['a','l','i','c','e'], sampleContact)], [], []⟩
              ['a','l','i','c','e']).2.contacts
          (build [['a','l','i','c','e']]) ['a','l'] = [] := by
  refine ⟨?_, by decide, by decide⟩
  simp only [search_contact, List.mem_filterMap] at h
  obtain ⟨a, ha, hfa⟩ := h
  cases hL : lookupKey (lower a) store with
  | none => rw [hL] at hfa; cases hfa
  | some c' =>
      rw [hL] at hfa
      simp only [Option.some.injEq, Prod.mk.injEq] at hfa
      obtain ⟨rfl, rfl⟩ := hfa
      exact hL

theorem c3_endpoint_filters_store_witness :
    ((['a','l','i','c','e'], sampleContact) ∈
        search_contact [(['a','l','i','c','e'], sampleContact)]
          (build [['a','l','i','c','e']]) ['a','l']) ∧
      (lookupKey (lower ['a','l','i','c','e'])
          [(['a','l','i','c','e'], sampleContact)] = some sampleContact ∧
        Trie.search (build [['a','l','i','c','e']]) ['a','l'] =
          [['a','l','i','c','e']] ∧
        search_contact
            (delete_contact ⟨[(['a','l','i','c','e'], sampleContact)], [], []⟩
                ['a','l','i','c','e']).2.contacts
            (build [['a','l','i','c','e']]) ['a','l'] = []) :=
  ⟨by decide,
    c3_endpoint_filters_store [(['a','l','i','c','e'], sampleContact)]
      (build [['a','l','i','c','e']]) ['a','l'] ['a','l','i','c','e']
      sampleContact (by decide)⟩

/-- Claim C6: a PUT whose body carries a truthy malformed phone or a truthy
malformed email returns 400, and on that path the contact store — hence the
contact record — is exactly as before the request. -/
theorem c6_validation_aborts_update (store : Store) (name : List Char)
    (d : UpdateData)
    (hkey : (lookupKey (lower name) store).isSome = true)
    (hbad : (truthy d.phone = true ∧ validate_phone (d.phone.getD []) = false) ∨
            (truthy d.email = true ∧ validate_email (d.email.getD []) = false)) :
    update_contact store name d = (400, store) := by
  obtain ⟨c, hc⟩ := Option.isSome_iff_exists.1 hkey
  rcases hbad with ⟨h1, h2⟩ | ⟨h1, h2⟩
  · simp [update_contact, hc, h1, h2]
  · by_cases hp : (truthy d.phone && !validate_phone (d.phone.getD [])) = true
    · simp [update_contact, hc, hp]
    · simp only [Bool.not_eq_true] at hp
      simp [update_contact, hc, hp, h1, h2]

theorem c6_validation_aborts_update_witness :
    ((lookupKey (lower ['b','o','b'])
          [(['b','o','b'], sampleContact)]).isSome = true ∧
      (truthy (some ['1']) = true ∧ validate_phone ['1'] = false)) ∧
      update_contact [(['b','o','b'], sampleContact)] ['b','o','b']
          ⟨some ['1'], none, none, none, none⟩ =
        (400, [(['b','o','b'], sampleContact)]) :=
  ⟨by decide, c6_validation_aborts_update _ _ _ (by decide) (by decide)⟩

/-- Characterization of the success path of `update_contact`: when the key
is present and neither validation guard fires, the handler returns 200 and
rewrites the record field by field — each truthy string field is replaced,
`favorite` is replaced whenever present. -/
theorem update_contact_success (store : Store) (name : List Char)
    (d : UpdateData) (contact : Contact)
    (hc : lookupKey (lower name) store = some contact)
    (hg1 : (truthy d.phone && !validate_phone (d.phone.getD [])) = false)
    (hg2 : (truthy d.email && !validate_email (d.email.getD [])) = false) :
    update_contact store name d =
      (200, setKey (lower name)
        { phone := if truthy d.phone then d.phone.getD [] else contact.phone
          email := if truthy d.email then d.email.getD [] else contact.email
          address := if truthy d.address then d.address.getD [] else contact.address
          group := if truthy d.group then d.group.getD [] else contact.group
          favorite := d.favorite.getD contact.favorite } store) := by
  cases h1 : truthy d.phone <;> cases h2 : truthy d.email <;>
    cases h3 : truthy d.address <;> cases h4 : truthy d.group <;>
      cases h5 : d.favorite <;>
        simp_all [update_contact, hc]

/-- Claim C8: on a successful partial update, a string field that is absent
or provided as the empty string is left untouched (in particular an empty
phone leaves the stored phone unchanged), an absent favorite is left
untouched, and every other key of the store keeps its record unchanged. -/
theorem c8_partial_update_frame (store : Store) (name : List Char)
    (d : UpdateData) (contact : Contact)
    (hc : lookupKey (lower name) store = some contact)
    (hp : truthy d.phone = true → validate_phone (d.phone.getD []) = true)
    (he : truthy d.email = true → validate_email (d.email.getD []) = true) :
    (update_contact store name d).1 = 200 ∧
      ∃ c', lookupKey (lower name) (update_contact store name d).2 = some c' ∧
        (truthy d.phone = false → c'.phone = contact.phone) ∧
        (truthy d.email = false → c'.email = contact.email) ∧
        (truthy d.address = false → c'.address = contact.address) ∧
        (truthy d.group = false → c'.group = contact.group) ∧
        (d.favorite = none → c'.favorite = contact.favorite) ∧
        ∀ k, k ≠ lower name →
          lookupKey k (update_contact store name d).2 = lookupKey k store := by
  have hg1 : (truthy d.phone && !validate_phone (d.phone.getD [])) = false := by
    cases h : truthy d.phone
    · simp
    · simp [hp h]
  have hg2 : (truthy d.email && !validate_email (d.email.getD [])) = false := by
    cases h : truthy d.email
    · simp
    · simp [he h]
  rw [update_contact_success store name d contact hc hg1 hg2]
  refine ⟨rfl, _, lookupKey_setKey_self _ _ _, ?_, ?_, ?_, ?_, ?_, ?_⟩
  · intro h; simp [h]
  · intro h; simp [h]
  · intro h; simp [h]
  · intro h; simp [h]
  · intro h; simp [h]
  · intro k hk
    exact lookupKey_setKey_ne _ _ _ _ hk

theorem c8_partial_update_frame_witness :
    (lookupKey (lower ['b','o','b']) [(['b','o','b'], sampleContact)] =
        some sampleContact ∧
      (truthy (some ([] : List Char)) = true →
        validate_phone ((some ([] : List Char)).getD []) = true) ∧
      (truthy (none : Option (List Char)) = true →
        validate_email ((none : Option (List Char)).getD []) = true)) ∧
      ((update_contact [(['b','o','b'], sampleContact)] ['b','o','b']
          ⟨some [], none, none, none, none⟩).1 = 200 ∧
        ∃ c', lookupKey (lower ['b','o','b'])
            (update_contact [(['b','o','b'], sampleContact)] ['b','o','b']
              ⟨some [], none, none, none, none⟩).2 = some c' ∧
          (truthy (some ([] : List Char)) = false →
            c'.phone = sampleContact.phone) ∧
          (truthy (none : Option (List Char)) = false →
            c'.email = sampleContact.email) ∧
          (truthy (none : Option (List Char)) = false →
            c'.address = sampleContact.address) ∧
          (truthy (none : Option (List Char)) = false →
            c'.group = sampleContact.group) ∧
          ((none : Option Bool) = none →
            c'.favorite = sampleContact.favorite) ∧
          ∀ k, k ≠ lower ['b','o','b'] →
            lookupKey k (update_contact [(['b','o','b'], sampleContact)]
                ['b','o','b'] ⟨some [], none, none, none, none⟩).2 =
              lookupKey k [(['b','o','b'], sampleContact)]) :=
  ⟨⟨by decide, by decide, by decide⟩,
    c8_partial_update_frame _ _ _ _ (by decide) (by decide) (by decide)⟩

/-- Claim C9 (implicit): `favorite` is updated under `is not None` while
every string field is updated under truthiness — a request supplying
favorite together with empty strings for phone, email, address and group
succeeds, stores the supplied favorite value (also when it is `false`), and
leaves all four string fields unchanged. -/
theorem c9_favorite_rule (store : Store) (name : List Char) (contact : Contact)
    (b : Bool) (hc : lookupKey (lower name) store = some contact) :
    update_contact store name ⟨some [], some [], some [], some [], some b⟩ =
      (200, setKey (lower name) { contact with favorite := b } store) := by
  rw [update_contact_success store name
      ⟨some [], some [], some [], some [], some b⟩ contact hc rfl rfl]
  simp [truthy]

theorem c9_favorite_rule_witness :
    (lookupKey (lower ['b','o','b'])
        [(['b','o','b'], { sampleContact with favorite := true })] =
      some { sampleContact with favorite := true }) ∧
      update_contact [(['b','o','b'], { sampleContact with favorite := true })]
          ['b','o','b'] ⟨some [], some [], some [], some [], some false⟩ =
        (200, setKey (lower ['b','o','b'])
          { { sampleContact with favorite := true } with favorite := false }
          [(['b','o','b'], { sampleContact with favorite := true })]) :=
  ⟨by decide, c9_favorite_rule _ _ _ false (by decide)⟩

theorem neighbors_relAdd (g : Graph) (k v x : List Char) :
    neighbors (relAdd g k v) x =
      if x = k then
        (if v ∈ neighbors g k then neighbors g k else neighbors g k ++ [v])
      else neighbors g x := by
  unfold relAdd
  cases hL : lookupKey k g with
  | some ns =>
      by_cases hv : v ∈ ns
      · by_cases hx : x = k <;> simp [neighbors, hL, hv, hx]
      · by_cases hx : x = k
        · subst hx
          simp [neighbors, hL, hv, lookupKey_setKey_self]
        · simp [neighbors, hL, hv, hx, lookupKey_setKey_ne k x _ g hx]
  | none =>
      by_cases hx : x = k
      · subst hx
        simp [neighbors, hL, lookupKey_append, lookupKey]
      · cases hLx : lookupKey x g <;>
          simp [neighbors, hL, hx, lookupKey_append, lookupKey, hLx,
            Ne.symm hx]

theorem mem_neighbors_relAdd (g : Graph) (k v x y : List Char) :
    y ∈ neighbors (relAdd g k v) x ↔ y ∈ neighbors g x ∨ (x = k ∧ y = v) := by
  rw [neighbors_relAdd]
  by_cases hx : x = k
  · subst hx
    rw [if_pos rfl]
    by_cases hv : v ∈ neighbors g x
    · rw [if_pos hv]
      constructor
      · exact fun h => Or.inl h
      · rintro (h | ⟨-, rfl⟩)
        · exact h
        · exact hv
    · rw [if_neg hv]
      simp [List.mem_append]
  · rw [if_neg hx]
    simp [hx]

theorem relAdd_noop (g : Graph) (k v : List Char) (h : v ∈ neighbors g k) :
    relAdd g k v = g := by
  unfold relAdd
  cases hL : lookupKey k g with
  | some ns =>
      have hv : v ∈ ns := by simpa [neighbors, hL] using h
      simp [hv]
  | none => simp [neighbors, hL] at h

/-- Claim C7: `add_relationship` returns 404 and leaves the graph unchanged
when either lowercased key is absent from the contact store; when both are
present it returns 200, puts each endpoint into the neighbor set of the other,
is a structural no-op when repeated (set semantics), and preserves the
symmetry of the graph. -/
theorem c7_add_relationship (store : Store) (g : Graph) (n1 n2 : List Char) :
    ((lookupKey (lower n1) store = none ∨ lookupKey (lower n2) store = none) →
        add_relationship store g n1 n2 = (404, g)) ∧
      ((lookupKey (lower n1) store).isSome = true →
        (lookupKey (lower n2) store).isSome = true →
        (add_relationship store g n1 n2).1 = 200 ∧
          lower n2 ∈ neighbors (add_relationship store g n1 n2).2 (lower n1) ∧
          lower n1 ∈ neighbors (add_relationship store g n1 n2).2 (lower n2) ∧
          add_relationship store (add_relationship store g n1 n2).2 n1 n2 =
            (200, (add_relationship store g n1 n2).2) ∧
          (SymmGraph g → SymmGraph (add_relationship store g n1 n2).2)) := by
  constructor
  · rintro (h | h) <;> simp [add_relationship, h]
  · intro h1 h2
    obtain ⟨c1, hc1⟩ := Option.isSome_iff_exists.1 h1
    obtain ⟨c2, hc2⟩ := Option.isSome_iff_exists.1 h2
    have hadd : add_relationship store g n1 n2 =
        (200, relAdd (relAdd g (lower n1) (lower n2)) (lower n2) (lower n1)) := by
      simp [add_relationship, hc1, hc2]
    rw [hadd]
    have hm1 : lower n2 ∈ neighbors
        (relAdd (relAdd g (lower n1) (lower n2)) (lower n2) (lower n1))
        (lower n1) := by
      rw [mem_neighbors_relAdd, mem_neighbors_relAdd]
      exact Or.inl (Or.inr ⟨rfl, rfl⟩)
    have hm2 : lower n1 ∈ neighbors
        (relAdd (relAdd g (lower n1) (lower n2)) (lower n2) (lower n1))
        (lower n2) := by
      rw [mem_neighbors_relAdd]
      exact Or.inr ⟨rfl, rfl⟩
    have hr1 : relAdd (relAdd (relAdd g (lower n1) (lower n2)) (lower n2)
        (lower n1)) (lower n1) (lower n2) =
        relAdd (relAdd g (lower n1) (lower n2)) (lower n2) (lower n1) :=
      relAdd_noop _ _ _ hm1
    have hr2 : relAdd (relAdd (relAdd g (lower n1) (lower n2)) (lower n2)
        (lower n1)) (lower n2) (lower n1) =
        relAdd (relAdd g (lower n1) (lower n2)) (lower n2) (lower n1) :=
      relAdd_noop _ _ _ hm2
    refine ⟨rfl, hm1, hm2, ?_, ?_⟩
    · simp [add_relationship, hc1, hc2, hr1, hr2]
    · intro hS x y hy
      rw [mem_neighbors_relAdd, mem_neighbors_relAdd] at hy
      rw [mem_neighbors_relAdd, mem_neighbors_relAdd]
      rcases hy with ((h | ⟨rfl, rfl⟩) | ⟨rfl, rfl⟩)
      · exact Or.inl (Or.inl (hS x y h))
      · exact Or.inr ⟨rfl, rfl⟩
      · exact Or.inl (Or.inr ⟨rfl, rfl⟩)

theorem c7_add_relationship_witness :
    (lookupKey (lower ['c','a','r','l']) sampleState.contacts = none ∧
      (lookupKey (lower ['a','l','i','c','e']) sampleState.contacts).isSome =
        true ∧
      (lookupKey (lower ['b','o','b']) sampleState.contacts).isSome = true) ∧
      (add_relationship sampleState.contacts [] ['a','l','i','c','e']
          ['c','a','r','l'] = (404, []) ∧
        ((add_relationship sampleState.contacts [] ['a','l','i','c','e']
              ['b','o','b']).1 = 200 ∧
          lower ['b','o','b'] ∈ neighbors
            (add_relationship sampleState.contacts [] ['a','l','i','c','e']
              ['b','o','b']).2 (lower ['a','l','i','c','e']) ∧
          lower ['a','l','i','c','e'] ∈ neighbors
            (add_relationship sampleState.contacts [] ['a','l','i','c','e']
              ['b','o','b']).2 (lower ['b','o','b']) ∧
          add_relationship sampleState.contacts
              (add_relationship sampleState.contacts [] ['a','l','i','c','e']
                ['b','o','b']).2 ['a','l','i','c','e'] ['b','o','b'] =
            (200, (add_relationship sampleState.contacts []
              ['a','l','i','c','e'] ['b','o','b']).2) ∧
          (SymmGraph [] → SymmGraph
            (add_relationship sampleState.contacts [] ['a','l','i','c','e']
              ['b','o','b']).2))) :=
  ⟨⟨by decide, by decide, by decide⟩,
    (c7_add_relationship sampleState.contacts [] ['a','l','i','c','e']
        ['c','a','r','l']).1 (Or.inr (by decide)),
    (c7_add_relationship sampleState.contacts [] ['a','l','i','c','e']
        ['b','o','b']).2 (by decide) (by decide)⟩

/-- Claim C10 (implicit): deleting a contact removes only its entry in the
contact store — for every state and name the relationship graph and the
call log are untouched — so the graph dump and the call-log dump can still
report a contact that no longer exists in the store, as the closed
conjuncts show after deleting "alice" from the sample state. -/
theorem c10_delete_leaves_graph_and_log :
    (∀ (s : AppState) (name : List Char),
        (delete_contact s name).2.relationships = s.relationships ∧
          (delete_contact s name).2.call_log = s.call_log) ∧
      lookupKey ['a','l','i','c','e']
          (delete_contact sampleState ['a','l','i','c','e']).2.contacts =
        none ∧
      lookupKey ['a','l','i','c','e']
          (get_graph (delete_contact sampleState ['a','l','i','c','e']).2) =
        some [['b','o','b']] ∧
      lookupKey ['a','l','i','c','e']
          (get_call_log (delete_contact sampleState ['a','l','i','c','e']).2) =
        some [['n','o','o','n']] := by
  refine ⟨?_, by decide, by decide, by decide⟩
  intro s name
  cases h : (lookupKey (lower name) s.contacts).isSome <;>
    simp [delete_contact, h]

end Phonebook
